import Mathlib

set_option maxRecDepth 20000

/-!
Verification development for the intelli-scaper crawler.

The repository's URL handling is built on Python's `urllib.parse`
(`urlsplit`, `urlparse`, `urljoin`, `urlunsplit`, `urlunparse`, the
`hostname` accessor).  The `Urllib` namespace below is a shallow embedding
of those stdlib routines (CPython 3.11), working on `List Char`.
Simplifications, noted where they occur: the NFKC check for non-ASCII
netlocs and the bracketed-host (IPv6 literal) content validation are not
modelled; the modelled parse failure is the "Invalid IPv6 URL" error that
`urlsplit` raises when a netloc contains an unbalanced bracket.
-/

namespace Urllib

abbrev Chars := List Char

/-- WHATWG C0-control-or-space class stripped from the front of a URL by
CPython `urlsplit`. -/
def isC0OrSpace (c : Char) : Bool := c.toNat ≤ 32

/-- Tab, CR and LF are removed from anywhere in the URL by `urlsplit`. -/
def isUnsafeUrlByte (c : Char) : Bool := c == '\t' || c == '\r' || c == '\n'

/-- Characters allowed in a URL scheme (`scheme_chars` in CPython). -/
def isSchemeChar (c : Char) : Bool :=
  c.isAlpha || c.isDigit || c == '+' || c == '-' || c == '.'

/-- Python `s.split(sep, 1)`: the part before the first occurrence of `c0`
and, when `c0` occurs, the part after it. -/
def splitFirstChar (c0 : Char) : Chars → Chars × Option Chars
  | [] => ([], none)
  | c :: cs =>
    if c == c0 then ([], some cs)
    else
      let r := splitFirstChar c0 cs
      (c :: r.1, r.2)

/-- CPython `_splitnetloc`: scan until the first of `/`, `?`, `#`;
returns the netloc and the remainder (delimiter included). -/
def splitNetlocChars : Chars → Chars × Chars
  | [] => ([], [])
  | c :: cs =>
    if c == '/' || c == '?' || c == '#' then ([], c :: cs)
    else
      let r := splitNetlocChars cs
      (c :: r.1, r.2)

/-- Scheme extraction of `urlsplit`: a `:` at position `i > 0`, a leading
ASCII letter, and every character before the colon in `scheme_chars`. -/
def splitSchemeChars (url : Chars) : Option Chars × Chars :=
  match url.findIdx? (fun c => c == ':') with
  | some i =>
    if 0 < i && (match url.head? with | some c => c.isAlpha | none => false)
        && (url.take i).all isSchemeChar
    then (some ((url.take i).map Char.toLower), url.drop (i + 1))
    else (none, url)
  | none => (none, url)

structure SplitResult where
  scheme : Chars
  netloc : Chars
  path : Chars
  query : Chars
  fragment : Chars
deriving DecidableEq, Repr

/-- CPython `urlsplit(url, scheme=dflt)` with `allow_fragments=True`.
Raises (returns `.error`) on a netloc with an unbalanced square bracket,
exactly the "Invalid IPv6 URL" `ValueError` of the stdlib. -/
def urlsplitE (url0 : Chars) (dflt : Chars := []) : Except String SplitResult :=
  let url1 := (url0.dropWhile isC0OrSpace).filter (fun c => !(isUnsafeUrlByte c))
  let sr := splitSchemeChars url1
  let scheme := sr.1.getD dflt
  if (sr.2.take 2) == ['/', '/'] then
    let nl := splitNetlocChars (sr.2.drop 2)
    if (nl.1.contains '[') != (nl.1.contains ']') then
      .error "Invalid IPv6 URL"
    else
      let f := splitFirstChar '#' nl.2
      let q := splitFirstChar '?' f.1
      .ok ⟨scheme, nl.1, q.1, (q.2).getD [], (f.2).getD []⟩
  else
    let f := splitFirstChar '#' sr.2
    let q := splitFirstChar '?' f.1
    .ok ⟨scheme, [], q.1, (q.2).getD [], (f.2).getD []⟩

/-- Everything after the last occurrence of `c0` (the whole list when `c0`
is absent); Python `l.rpartition(c0)[2]`. -/
def afterLastChar (c0 : Char) (l : Chars) : Chars :=
  (l.reverse.takeWhile (fun c => c != c0)).reverse

/-- The `hostname` accessor of a split result: strip userinfo (after the
last `@`), take the bracketed part for IPv6 literals or the part before a
`:` otherwise, lowercase it while preserving a `%zone` suffix.  Empty list
plays the role of Python's `None`. -/
def hostnameOf (r : SplitResult) : Chars :=
  let hostinfo := afterLastChar '@' r.netloc
  let host :=
    if hostinfo.contains '[' then
      let br := ((splitFirstChar '[' hostinfo).2).getD []
      (splitFirstChar ']' br).1
    else (splitFirstChar ':' hostinfo).1
  let z := splitFirstChar '%' host
  (z.1.map Char.toLower) ++ (match z.2 with | some zone => '%' :: zone | none => [])

structure ParseResult where
  scheme : Chars
  netloc : Chars
  path : Chars
  params : Chars
  query : Chars
  fragment : Chars
deriving DecidableEq, Repr

def usesRelative : List Chars :=
  (["", "ftp", "http", "gopher", "nntp", "imap", "wais", "file", "https",
    "shttp", "mms", "prospero", "rtsp", "rtsps", "rtspu", "sftp", "svn",
    "svn+ssh", "ws", "wss"].map String.toList)

def usesNetloc : List Chars :=
  (["", "ftp", "http", "gopher", "nntp", "telnet", "imap", "wais", "file",
    "mms", "https", "shttp", "snews", "prospero", "rtsp", "rtsps", "rtspu",
    "rsync", "svn", "svn+ssh", "sftp", "nfs", "git", "git+ssh", "ws",
    "wss"].map String.toList)

def usesParams : List Chars :=
  (["", "ftp", "hdl", "prospero", "http", "imap", "https", "shttp", "rtsp",
    "rtsps", "rtspu", "sip", "sips", "mms", "sftp", "tel"].map String.toList)

/-- Index of the last occurrence of `c0` (Python `rfind`, when present). -/
def rfindIdx (c0 : Char) (l : Chars) : Option Nat :=
  (l.reverse.findIdx? (fun c => c == c0)).map (fun i => l.length - 1 - i)

/-- First index `≥ start` holding `c0` (Python `find(c0, start)`). -/
def findIdxFrom (c0 : Char) (start : Nat) (l : Chars) : Option Nat :=
  ((l.drop start).findIdx? (fun c => c == c0)).map (fun i => i + start)

/-- CPython `_splitparams`. -/
def splitParamsChars (path : Chars) : Chars × Chars :=
  if path.contains '/' then
    match findIdxFrom ';' ((rfindIdx '/' path).getD 0) path with
    | none => (path, [])
    | some i => (path.take i, path.drop (i + 1))
  else
    match path.findIdx? (fun c => c == ';') with
    | none => (path, [])
    | some i => (path.take i, path.drop (i + 1))

/-- CPython `urlparse`: `urlsplit` plus the `;params` split on the path. -/
def urlparseE (url : Chars) (dflt : Chars := []) : Except String ParseResult :=
  (urlsplitE url dflt).map fun r =>
    if usesParams.contains r.scheme && r.path.contains ';' then
      let pp := splitParamsChars r.path
      ⟨r.scheme, r.netloc, pp.1, pp.2, r.query, r.fragment⟩
    else ⟨r.scheme, r.netloc, r.path, [], r.query, r.fragment⟩

/-- CPython 3.11 `urlunsplit`. -/
def urlunsplit (r : SplitResult) : Chars :=
  let url1 :=
    if !r.netloc.isEmpty
        || (!r.scheme.isEmpty && usesNetloc.contains r.scheme
            && (r.path.take 2) != ['/', '/']) then
      let u2 := if !r.path.isEmpty && (r.path.take 1) != ['/'] then '/' :: r.path else r.path
      '/' :: '/' :: (r.netloc ++ u2)
    else r.path
  let url2 := if !r.scheme.isEmpty then r.scheme ++ ':' :: url1 else url1
  let url3 := if !r.query.isEmpty then url2 ++ '?' :: r.query else url2
  if !r.fragment.isEmpty then url3 ++ '#' :: r.fragment else url3

/-- CPython `urlunparse`. -/
def urlunparse (r : ParseResult) : Chars :=
  let path := if !r.params.isEmpty then r.path ++ ';' :: r.params else r.path
  urlunsplit ⟨r.scheme, r.netloc, path, r.query, r.fragment⟩

/-- Python `str.split(sep)` for a one-character separator (never returns
an empty list; splitting the empty string gives one empty part). -/
def splitOnChar (c0 : Char) : Chars → List Chars
  | [] => [[]]
  | c :: cs =>
    let r := splitOnChar c0 cs
    if c == c0 then [] :: r
    else
      match r with
      | h :: t => (c :: h) :: t
      | [] => [[c]]

/-- The `segments[1:-1] = filter(None, segments[1:-1])` step of `urljoin`:
drop empty segments, keeping the first and last untouched. -/
def filterMiddle (s : List Chars) : List Chars :=
  match s with
  | [] => []
  | [a] => [a]
  | a :: rest =>
    match rest.getLast? with
    | none => [a]
    | some lastSeg => a :: ((rest.dropLast.filter (fun x => !x.isEmpty)) ++ [lastSeg])

/-- The dot-segment resolution loop of `urljoin` (`..` pops, `.` is
skipped, a trailing `.` or `..` re-appends an empty segment). -/
def resolveSegs (segs : List Chars) : List Chars :=
  let res := segs.foldl
    (fun acc seg =>
      if seg == ['.', '.'] then acc.dropLast
      else if seg == ['.'] then acc
      else acc ++ [seg]) []
  if segs.getLast? == some ['.'] || segs.getLast? == some ['.', '.'] then res ++ [[]]
  else res

/-- Body of CPython `urljoin` after both URLs parsed, schemes equal and in
`uses_relative`. -/
def urljoinResolved (b r : ParseResult) : Chars :=
  if usesNetloc.contains r.scheme && !r.netloc.isEmpty then
    urlunparse r
  else
    let netloc := if usesNetloc.contains r.scheme then b.netloc else r.netloc
    if r.path.isEmpty && r.params.isEmpty then
      urlunparse ⟨r.scheme, netloc, b.path, b.params,
        (if r.query.isEmpty then b.query else r.query), r.fragment⟩
    else
      let baseParts0 := splitOnChar '/' b.path
      let baseParts :=
        if baseParts0.getLast? != some [] then baseParts0.dropLast else baseParts0
      let segments :=
        if (r.path.take 1) == ['/'] then splitOnChar '/' r.path
        else filterMiddle (baseParts ++ splitOnChar '/' r.path)
      let joined := List.intercalate ['/'] (resolveSegs segments)
      urlunparse ⟨r.scheme, netloc, (if joined.isEmpty then ['/'] else joined),
        r.params, r.query, r.fragment⟩

/-- CPython `urljoin(base, url)`; `.error` when a parse raises. -/
def urljoinE (base url : Chars) : Except String Chars :=
  if base.isEmpty then .ok url
  else if url.isEmpty then .ok base
  else
    match urlparseE base [] with
    | .error e => .error e
    | .ok b =>
      match urlparseE url b.scheme with
      | .error e => .error e
      | .ok r =>
        if r.scheme != b.scheme || !usesRelative.contains r.scheme then .ok url
        else .ok (urljoinResolved b r)

end Urllib

/-! ## Shared pure string helpers used by the repository code -/

/-- Python `str.startswith` via the underlying character lists. -/
def pyStartsWith (s pre : String) : Bool := pre.toList.isPrefixOf s.toList

/-- Python `"x" or "y"` on strings: the first operand unless it is empty. -/
def pyOr (a b : String) : String := if a = "" then b else a

/-- Python `str.strip()` (ASCII whitespace at both ends). -/
def pyStrip (s : String) : String :=
  String.mk (((s.toList.dropWhile Char.isWhitespace).reverse.dropWhile
    Char.isWhitespace).reverse)

/-- Boolean contiguous-sublist test. -/
def isInfixB (needle : Urllib.Chars) : Urllib.Chars → Bool
  | [] => needle.isEmpty
  | c :: cs => needle.isPrefixOf (c :: cs) || isInfixB needle cs

/-- Python `needle in haystack` on strings. -/
def pyContains (haystack needle : String) : Bool :=
  isInfixB needle.toList haystack.toList

/-- Collapse every run of two or more slashes to a single slash:
the effect of `re.sub(r"/\x7b2,\x7d", "/", path)` in the source. -/
def collapseSlashes : Urllib.Chars → Urllib.Chars
  | [] => []
  | [c] => [c]
  | c1 :: c2 :: rest =>
    if c1 == '/' && c2 == '/' then collapseSlashes (c2 :: rest)
    else c1 :: collapseSlashes (c2 :: rest)

/-- Python `path or "/"`. -/
def orSlash (l : Urllib.Chars) : Urllib.Chars := if l.isEmpty then ['/'] else l

/-- True when the list contains two adjacent slashes. -/
def hasDoubleSlash : Urllib.Chars → Bool
  | c1 :: c2 :: rest => (c1 == '/' && c2 == '/') || hasDoubleSlash (c2 :: rest)
  | _ => false

namespace Crawler

/-- `same_domain` from src/crawler.py (the identical copy in src/main.py is
shared here): compare the lowercased netloc of the link against the
lowercased, leading-dot-stripped domain, or against it as a dot-suffix;
any parse error yields `false`. -/
def same_domain (link domain : String) : Bool :=
  match Urllib.urlparseE link.toList [] with
  | .error _ => false
  | .ok r =>
    let host := r.netloc.map Char.toLower
    let base := (domain.toList.map Char.toLower).dropWhile (fun c => c == '.')
    host == base || ('.' :: base).isSuffixOf host

/-- `path_allowed` from src/crawler.py (same body in src/main.py). -/
def path_allowed (url : String) (allowedPrefixes : List String) : Bool :=
  if allowedPrefixes.isEmpty then true
  else
    match Urllib.urlparseE url.toList [] with
    | .error _ => false
    | .ok r =>
      let p := orSlash r.path
      allowedPrefixes.any (fun pre => pre.toList.isPrefixOf p)

/-- Transient-failure signatures recognised by `safe_call`. -/
def sigs : List String := ["Execution context was destroyed", "Target closed"]

/-- Python `any(s in str(e) for s in sigs)`. -/
def isTransientMsg (msg : String) : Bool := sigs.any (fun s => pyContains msg s)

/-- Outcome of a `safe_call` run: the returned value or the raised error
(`.error none` models Python raising the initial `last_err = None`),
together with how many times `wait_until_stable` was called. -/
structure SCRun (α : Type) where
  outcome : Except (Option String) α
  stabilized : Nat
deriving Repr

/-- One pass of the `for _ in range(retries)` loop of `safe_call`
(src/crawler.py and src/main.py): `att i` is what the wrapped page
operation does on attempt `i`. -/
def safeCallAux {α : Type} (att : Nat → Except String α) (i : Nat) :
    Nat → Option String → SCRun α
  | 0, lastErr => ⟨.error lastErr, 0⟩
  | fuel + 1, _ =>
    match att i with
    | .ok a => ⟨.ok a, 0⟩
    | .error e =>
      if isTransientMsg e then
        let r := safeCallAux att (i + 1) fuel (some e)
        ⟨r.outcome, r.stabilized + 1⟩
      else ⟨.error (some e), 0⟩

/-- `safe_call(page, coro_factory, retries=3)`. -/
def safe_call {α : Type} (att : Nat → Except String α) (retries : Nat := 3) : SCRun α :=
  safeCallAux att 0 retries none

end Crawler

namespace HiddenLinks

/-- `normalize_url(base, u)` from src/hidden_links.py: join against the
base, drop the fragment, collapse duplicate path slashes (empty path
becomes `/`), keep the query; a parse error returns `u` unchanged. -/
def normalize_url (base u : String) : String :=
  match Urllib.urljoinE base.toList u.toList with
  | .error _ => u
  | .ok absu =>
    match Urllib.urlsplitE absu [] with
    | .error _ => u
    | .ok parts =>
      String.mk (Urllib.urlunsplit
        ⟨parts.scheme, parts.netloc, orSlash (collapseSlashes parts.path),
         parts.query, []⟩)

/-- `same_domain(a, b)` from src/hidden_links.py: both hostnames
(lowercased, leading dots stripped) equal, or either a dot-suffix of the
other; parse errors yield `false`. -/
def same_domain (a b : String) : Bool :=
  match Urllib.urlsplitE a.toList [], Urllib.urlsplitE b.toList [] with
  | .ok ra, .ok rb =>
    let ha := (Urllib.hostnameOf ra).dropWhile (fun c => c == '.')
    let hb := (Urllib.hostnameOf rb).dropWhile (fun c => c == '.')
    ha == hb || ('.' :: hb).isSuffixOf ha || ('.' :: ha).isSuffixOf hb
  | _, _ => false

/-- `has_hostname(u)` from src/hidden_links.py. -/
def has_hostname (u : String) : Bool :=
  match Urllib.urlsplitE u.toList [] with
  | .ok r => !(Urllib.hostnameOf r).isEmpty
  | .error _ => false

/-- `in_base_path(base_url, u)` from src/hidden_links.py. -/
def in_base_path (baseUrl u : String) : Bool :=
  match Urllib.urlsplitE baseUrl.toList [] with
  | .error _ => false
  | .ok rb =>
    let basePath := orSlash rb.path
    if basePath == ['/'] then true
    else
      match Urllib.urlsplitE u.toList [] with
      | .error _ => false
      | .ok ru =>
        let upath := orSlash ru.path
        if upath == basePath then true
        else
          let pre := if basePath.getLast? == some '/' then basePath
                     else basePath ++ ['/']
          pre.isPrefixOf upath

/-- Set-style insertion used to model the Python `set` accumulators. -/
def addIfNew (results : List String) (u : String) : List String :=
  if results.contains u then results else results ++ [u]

def unionNew (results : List String) (us : List String) : List String :=
  us.foldl addIfNew results

/-- URL collection and filtering of one `click_probe` call
(src/hidden_links.py lines 200-226): `navs` are the URLs drained from the
injected `window.__navs` hook, `cur` the page URL when it changed after
the click.  Every captured URL is normalized against `base_url`; the set
is then reduced to same-domain (when requested) and base-path scope. -/
def click_probe_urls (baseUrl : String) (sdo : Bool)
    (navs : List String) (cur : Option String) : List String :=
  let out := unionNew [] (navs.map (normalize_url baseUrl))
  let out := match cur with
    | some c => addIfNew out (normalize_url baseUrl c)
    | none => out
  let out := if sdo then out.filter (fun u => same_domain u baseUrl) else out
  out.filter (fun u => in_base_path baseUrl u)

/-- `add_url` closure inside `get_all_links` (src/hidden_links.py lines
248-254), fired by the navigation-request hook. -/
def add_url (url : String) (sdo : Bool) (results : List String) (u : String) :
    List String :=
  if u = "" then results
  else
    let nu := normalize_url url u
    if (!sdo || same_domain nu url) && in_base_path url nu
        && !(results.contains nu) then
      results ++ [nu]
    else results

/-- One observable URL-producing event during a `get_all_links` run:
either the `page.on("request")` hook firing on a navigation request, or
one click probe returning its captured URLs. -/
inductive DiscEvent
  | navReq (u : String)
  | probe (navs : List String) (cur : Option String)

def stepEvent (url : String) (sdo : Bool) (results : List String) :
    DiscEvent → List String
  | .navReq u => add_url url sdo results u
  | .probe navs cur =>
    let found := click_probe_urls url sdo navs cur
    let found := found.filter (fun u => in_base_path url u)
    unionNew results found

/-- Lexicographic strictly-less on codepoints (Python string order). -/
def lexLt : Urllib.Chars → Urllib.Chars → Bool
  | [], [] => false
  | [], _ :: _ => true
  | _ :: _, [] => false
  | a :: as, b :: bs =>
    if a.toNat < b.toNat then true
    else if b.toNat < a.toNat then false
    else lexLt as bs

/-- Insertion step of the insertion sort modelling Python `sorted`. -/
def insertSorted (a : String) : List String → List String
  | [] => [a]
  | b :: bs =>
    if lexLt a.toList b.toList || a == b then a :: b :: bs
    else b :: insertSorted a bs

/-- Python `sorted` on a set of strings (codepoint order). -/
def sortedStrings (l : List String) : List String := l.foldr insertSorted []

/-- Dataflow of `get_all_links(url, ..., same_domain_only=sdo, ...)`
(src/hidden_links.py): accumulate URLs over the run's events, then keep
only those with a hostname and inside the base path, sorted. -/
def get_all_links (url : String) (sdo : Bool) (events : List DiscEvent) :
    List String :=
  let results := events.foldl (stepEvent url sdo) []
  sortedStrings (results.filter (fun u => has_hostname u && in_base_path url u))

end HiddenLinks

namespace Crawler

/-- One persisted page record (the dict built in `_scrape_one` /
`scrape_one_page`). -/
structure Item where
  title : String
  type : String
  content : String
  url : String
deriving DecidableEq, Repr

/-- State of the cumulative snapshot file `pages.json`: absent, present
but unreadable/unparseable, or a parsed JSON array of records.  (A file
whose JSON parses to something other than an array is not modelled; the
writer itself only ever writes arrays.) -/
inductive SnapFile
  | missing
  | unreadable
  | ok (entries : List Item)
deriving DecidableEq, Repr

/-- The best-effort snapshot read in `ResultWriter.flush`: a missing or
unreadable file degrades to the empty list instead of failing. -/
def readSnapshot : SnapFile → List Item
  | .missing => []
  | .unreadable => []
  | .ok l => l

/-- State of a `ResultWriter`: the in-memory buffer, the lines of the
append-only `pages.ndjson` log (one record per line), the snapshot file,
the flush clock and the two flush thresholds. -/
structure WriterState where
  buffer : List Item
  ndjsonLines : List Item
  snapshotFile : SnapFile
  lastFlush : Int
  flushEveryItems : Nat
  flushEverySeconds : Int
deriving DecidableEq, Repr

/-- `ResultWriter.__init__`: note `max(1, int(flush_every_items))`. -/
def mkWriter (flushEveryItems flushEverySeconds now : Int)
    (ndjson0 : List Item) (snap0 : SnapFile) : WriterState :=
  ⟨[], ndjson0, snap0, now, (max 1 flushEveryItems).toNat, flushEverySeconds⟩

/-- `ResultWriter.flush` (src/crawler.py lines 203-225): no-op on an
empty buffer; otherwise append each buffered record as one line to the
record log, rewrite the snapshot as best-effort-read prior contents plus
the buffer, clear the buffer and reset the flush clock to `now`. -/
def flush (now : Int) (w : WriterState) : WriterState :=
  if w.buffer.isEmpty then w
  else
    { w with
      ndjsonLines := w.ndjsonLines ++ w.buffer,
      snapshotFile := .ok (readSnapshot w.snapshotFile ++ w.buffer),
      buffer := [],
      lastFlush := now }

/-- `ResultWriter.should_flush` at wall-clock time `now`. -/
def shouldFlush (now : Int) (w : WriterState) : Bool :=
  decide (w.flushEveryItems ≤ w.buffer.length)
    || decide (w.flushEverySeconds ≤ now - w.lastFlush)

/-- `ResultWriter.add`. -/
def add (now : Int) (item : Item) (w : WriterState) : WriterState :=
  let w1 := { w with buffer := w.buffer ++ [item] }
  if shouldFlush now w1 then flush now w1 else w1

/-- The page metadata dict evaluated in the page context. -/
structure Meta where
  ogTitle : String
  ogType : String
  titleTag : String
  canonical : String
deriving DecidableEq, Repr

/-- The configuration fields of `CrawlerConfig` that the per-page
pipeline reads. -/
structure Cfg where
  domain : String
  allowedPrefixes : List String
  quickMode : Bool

/-- Environment of one `_scrape_one` call: the outcome of every awaited
browser operation.  `.error` means that operation raised. -/
structure PageEnv where
  goto : Except String Unit
  finalUrl : String
  html : Except String String
  h2t : String → String
  meta : Except String Meta
  staticRaw : Except String (List String)
  inlineRaw : Except String (List String)
  hidden : Except String (List String)

/-- `Crawler._scrape_one` (src/crawler.py lines 276-356; the legacy copy
`scrape_one_page` in src/main.py has the same error structure).  Returns
`((returned url, returned link set), records handed to the writer)`.
The outer `except Exception` maps any raise to `(url, ∅)`; whatever was
already passed to `writer.add` before the raise stays persisted.  Set
unions are modelled as list concatenation (membership-equivalent). -/
def scrape_one (cfg : Cfg) (env : PageEnv) (url : String) :
    (String × List String) × List Item :=
  match env.goto with
  | .error _ => ((url, []), [])
  | .ok _ =>
    match env.html with
    | .error _ => ((url, []), [])
    | .ok html =>
      let markdown := env.h2t html
      match env.meta with
      | .error _ => ((url, []), [])
      | .ok m =>
        match Urllib.urlparseE env.finalUrl.toList [] with
        | .error _ => ((url, []), [])
        | .ok parsed =>
          let firstSegE : Except String String :=
            if parsed.path != [] && parsed.path != ['/'] then
              match (Urllib.splitOnChar '/' parsed.path).get? 1 with
              | some s => .ok (String.mk s)
              | none => .error "IndexError"
            else .ok ""
          match firstSegE with
          | .error _ => ((url, []), [])
          | .ok fs0 =>
            let firstSeg := pyOr fs0 "website"
            let pageType := pyOr firstSeg (pyOr m.ogType "website")
            let title := pyStrip (pyOr m.ogTitle (pyOr m.titleTag ""))
            let canonical := pyOr m.canonical env.finalUrl
            let persisted :=
              if path_allowed env.finalUrl cfg.allowedPrefixes then
                [Item.mk title pageType markdown canonical]
              else []
            match env.staticRaw with
            | .error _ => ((url, []), persisted)
            | .ok raw =>
              let staticLinks := raw.filter
                (fun u => pyStartsWith u "http" && same_domain u cfg.domain)
              match env.inlineRaw with
              | .error _ => ((url, []), persisted)
              | .ok inl0 =>
                let inlineUrls := inl0.filter (fun u => !(u == ""))
                let hidden :=
                  if cfg.quickMode then []
                  else match env.hidden with
                    | .ok h => h
                    | .error _ => []
                let allFound := staticLinks ++ inlineUrls ++ hidden
                let filtered := allFound.filter (fun u =>
                  pyStartsWith u "http" && same_domain u cfg.domain
                    && path_allowed u cfg.allowedPrefixes)
                ((env.finalUrl, filtered), persisted)

/-- True when some operation of the pipeline raised, i.e. the run of
`_scrape_one` went through the `except Exception` handler. -/
def scrapeErrored (env : PageEnv) : Bool :=
  (match env.goto with | .error _ => true | .ok _ => false)
  || (match env.html with | .error _ => true | .ok _ => false)
  || (match env.meta with | .error _ => true | .ok _ => false)
  || (match Urllib.urlparseE env.finalUrl.toList [] with
      | .error _ => true
      | .ok parsed =>
        (parsed.path != [] && parsed.path != ['/'])
          && ((Urllib.splitOnChar '/' parsed.path).get? 1).isNone)
  || (match env.staticRaw with | .error _ => true | .ok _ => false)
  || (match env.inlineRaw with | .error _ => true | .ok _ => false)

/-- True when the pipeline raised at a point before the `writer.add`
call, i.e. during navigation, content extraction or metadata handling. -/
def erroredBeforeSave (env : PageEnv) : Bool :=
  (match env.goto with | .error _ => true | .ok _ => false)
  || (match env.html with | .error _ => true | .ok _ => false)
  || (match env.meta with | .error _ => true | .ok _ => false)
  || (match Urllib.urlparseE env.finalUrl.toList [] with
      | .error _ => true
      | .ok parsed =>
        (parsed.path != [] && parsed.path != ['/'])
          && ((Urllib.splitOnChar '/' parsed.path).get? 1).isNone)

/-- Shared frontier state of one run: the pending FIFO queue and the
append-only logs of additions to `enqueued` and `visited` (list order =
insertion order; the Python sets are these lists up to membership). -/
structure SchedState where
  queue : List String
  enqueued : List String
  visited : List String
deriving DecidableEq, Repr

/-- The batched link-enqueue loop of `Crawler.run.worker`
(src/crawler.py lines 411-419): for each discovered link, stop at the
cap, and admit it only when new to `visited` and `enqueued` and
allow-listed (the check is on the candidate link itself). -/
def enqueueLoop (visited : List String) (limit : Nat) (prefs : List String)
    (enq : List String) : List String → List String
  | [] => []
  | lnk :: ls =>
    if limit ≤ visited.length then []
    else if !(visited.contains lnk) && !(enq.contains lnk)
        && path_allowed lnk prefs then
      lnk :: enqueueLoop visited limit prefs (enq ++ [lnk]) ls
    else enqueueLoop visited limit prefs enq ls

/-- The whole batch-enqueue block, including the outer
`if len(self._visited) < self.cfg.limit` guard. -/
def batchEnqueue (visited enq : List String) (limit : Nat)
    (prefs : List String) (links : List String) : List String :=
  if visited.length < limit then enqueueLoop visited limit prefs enq links
  else []

/-- Atomic transitions of the worker pool (src/crawler.py lines
383-426).  Each constructor is one await-free block of `worker`, so under
cooperative asyncio scheduling any interleaving of workers is a sequence
of these steps: `dropCap` (pop, cap reached, drop the URL), `skipVisited`
(pop, already visited), `take` (pop, mark visited), `finish` (after the
page visit, enqueue the batch of filtered links; `links` is the scrape
result, arbitrary because page content is environment-controlled). -/
inductive Step (limit : Nat) (prefs : List String) :
    SchedState → SchedState → Prop
  | dropCap (url : String) (rest enq vis : List String) :
      limit ≤ vis.length →
      Step limit prefs ⟨url :: rest, enq, vis⟩ ⟨rest, enq, vis⟩
  | skipVisited (url : String) (rest enq vis : List String) :
      vis.length < limit → url ∈ vis →
      Step limit prefs ⟨url :: rest, enq, vis⟩ ⟨rest, enq, vis⟩
  | take (url : String) (rest enq vis : List String) :
      vis.length < limit → url ∉ vis →
      Step limit prefs ⟨url :: rest, enq, vis⟩ ⟨rest, enq, vis ++ [url]⟩
  | finish (q enq vis links : List String) :
      Step limit prefs ⟨q, enq, vis⟩
        ⟨q ++ batchEnqueue vis enq limit prefs links,
         enq ++ batchEnqueue vis enq limit prefs links, vis⟩

/-- Reachability along worker steps. -/
def Reaches (limit : Nat) (prefs : List String) :
    SchedState → SchedState → Prop :=
  Relation.ReflTransGen (Step limit prefs)

/-- States the run can start in: after seeding, the queue and the
`enqueued` log hold the same URLs (seeds come from a Python set, hence no
duplicates) and nothing is visited. -/
def IsInit (s : SchedState) : Prop :=
  s.queue = s.enqueued ∧ s.enqueued.Nodup ∧ s.visited = []

end Crawler

namespace MainPy

/-- The batched-enqueue loop of `crawl_domain.worker` in src/main.py
(lines 441-449).  The allow-list test there reads `path_allowed(u, ...)`
where `u` is the loop variable left over from the seeding loop
(`for u in seeds: ...`) — the last seed — instead of the candidate link
`lnk`; the parameter `u` models that leaked variable. -/
def enqueueLoop (u : String) (visited : List String) (limit : Nat)
    (prefs : List String) (enq : List String) : List String → List String
  | [] => []
  | lnk :: ls =>
    if limit ≤ visited.length then []
    else if !(visited.contains lnk) && !(enq.contains lnk)
        && Crawler.path_allowed u prefs then
      lnk :: enqueueLoop u visited limit prefs (enq ++ [lnk]) ls
    else enqueueLoop u visited limit prefs enq ls

end MainPy

/-! ## Specification-side definitions and concrete sample inputs -/

/-- Specification-side same-site predicate for claim C6, written from the
spec's words: true iff the HOST of the URL equals the site or ends with
`.` followed by the site, case-insensitively; malformed input yields
false.  The host is the `hostname` accessor (no port, no userinfo),
already lowercased by `hostnameOf`. -/
def sameSiteSpec (u site : String) : Bool :=
  match Urllib.urlsplitE u.toList [] with
  | .error _ => false
  | .ok r =>
    let h := Urllib.hostnameOf r
    let s := site.toList.map Char.toLower
    h == s || ('.' :: s).isSuffixOf h

/-- Parsing stage of `HiddenLinks.normalize_url`: the split of the joined
URL when both library calls succeed. -/
def normParts (base u : String) : Option Urllib.SplitResult :=
  match Urllib.urljoinE base.toList u.toList with
  | .error _ => none
  | .ok absu =>
    match Urllib.urlsplitE absu [] with
    | .error _ => none
    | .ok parts => some parts

/-- Sample record for witnesses. -/
def sampleItem : Crawler.Item := ⟨"t", "blog", "md", "https://quill.co/blog/x"⟩

/-- Sample writer state with one buffered record. -/
def sampleWriter : Crawler.WriterState :=
  ⟨[sampleItem], [], .missing, 0, 50, 10⟩

/-- Page operation that always raises a non-transient error. -/
def attBoom : Nat → Except String Unit := fun _ => .error "boom"

/-- Page operation that always raises a transient-signature error. -/
def attClosed : Nat → Except String Unit :=
  fun _ => .error "Target closed while navigating"

/-- Frontier invariant maintained by every worker step: no URL is added
to `visited` or `enqueued` twice, every visited URL and every queued URL
was added to `enqueued`, and the visited count never exceeds the cap. -/
def Crawler.Inv (limit : Nat) (s : Crawler.SchedState) : Prop :=
  s.visited.Nodup ∧ s.enqueued.Nodup
    ∧ (∀ u ∈ s.visited, u ∈ s.enqueued)
    ∧ (∀ u ∈ s.queue, u ∈ s.enqueued)
    ∧ s.visited.length ≤ limit

/-- Sample pipeline configuration. -/
def cfgSample : Crawler.Cfg := ⟨"quill.co", ["/blog"], true⟩

/-- Pipeline environment where navigation, content and metadata succeed
on an allow-listed page, but static link discovery then raises: the
record has already been handed to the writer when the raise happens. -/
def envDiscoveryError : Crawler.PageEnv :=
  { goto := .ok ()
    finalUrl := "https://quill.co/blog/post"
    html := .ok "<html></html>"
    h2t := fun s => s
    meta := .ok ⟨"Title", "", "tag", ""⟩
    staticRaw := .error "Target closed"
    inlineRaw := .ok []
    hidden := .ok [] }

/-- Sample event list for a `get_all_links` run: one navigation-request
capture and one click probe. -/
def sampleEvents : List HiddenLinks.DiscEvent :=
  [HiddenLinks.DiscEvent.navReq "https://quill.co/blog/post1",
   HiddenLinks.DiscEvent.probe ["https://quill.co/blog/post2"]
     (some "https://quill.co/blog/post2")]

/-! ## Theorems -/

/-- C3: `ResultWriter.flush` is a no-op on an empty buffer (so a second
flush right after a flush changes nothing); with N buffered records it
appends exactly those N records as N lines to the append-only record log,
rewrites the snapshot to the best-effort-read prior contents (empty for a
missing or unreadable prior snapshot, never failing) followed by the N
records, clears the buffer and resets the flush clock. -/
theorem flush_postcondition (w : Crawler.WriterState) (now : Int) :
    (w.buffer = [] → Crawler.flush now w = w) ∧
    (w.buffer ≠ [] →
      (Crawler.flush now w).ndjsonLines = w.ndjsonLines ++ w.buffer ∧
      (Crawler.flush now w).ndjsonLines.length
        = w.ndjsonLines.length + w.buffer.length ∧
      (Crawler.flush now w).snapshotFile
        = .ok (Crawler.readSnapshot w.snapshotFile ++ w.buffer) ∧
      (Crawler.flush now w).buffer = [] ∧
      (Crawler.flush now w).lastFlush = now ∧
      (∀ later, Crawler.flush later (Crawler.flush now w) = Crawler.flush now w)) := by
  constructor
  · intro h
    simp [Crawler.flush, h]
  · intro h
    have hne : w.buffer.isEmpty = false := by
      simpa [List.isEmpty_iff] using h
    refine ⟨?_, ?_, ?_, ?_, ?_, ?_⟩ <;>
      simp [Crawler.flush, hne]

/-- Witness for C3 at a concrete writer state. -/
theorem flush_postcondition_witness :
    sampleWriter.buffer ≠ [] ∧
    (Crawler.flush 7 sampleWriter).ndjsonLines.length
      = sampleWriter.ndjsonLines.length + sampleWriter.buffer.length ∧
    (Crawler.flush 7 sampleWriter).snapshotFile
      = .ok (Crawler.readSnapshot sampleWriter.snapshotFile ++ sampleWriter.buffer) ∧
    Crawler.flush 9 (Crawler.flush 7 sampleWriter) = Crawler.flush 7 sampleWriter := by
  have h := (flush_postcondition sampleWriter 7).2 (by decide)
  exact ⟨by decide, h.2.1, h.2.2.1, h.2.2.2.2.2 9⟩

/-- C10: the `ResultWriter` constructor clamps the item threshold with
`max(1, ...)`, so for any configured `flush_every_items ≤ 1` the
threshold is 1 and every `add` immediately flushes, leaving the buffer
empty after every `add`. -/
theorem flush_threshold_clamped (n : Int) (hn : n ≤ 1) :
    (∀ secs now nd sn,
      (Crawler.mkWriter n secs now nd sn).flushEveryItems = 1) ∧
    (∀ w item now, w.flushEveryItems = 1 →
      (Crawler.add now item w).buffer = []) := by
  constructor
  · intro secs now nd sn
    simp only [Crawler.mkWriter]
    rw [max_eq_left hn]
    rfl
  · intro w item now h
    have hcond : w.flushEveryItems ≤ w.buffer.length + 1
        ∨ w.flushEverySeconds ≤ now - w.lastFlush := Or.inl (by simp [h])
    simp [Crawler.add, Crawler.shouldFlush, Crawler.flush, hcond]

/-- Witness for C10 with `flush_every_items = 0`. -/
theorem flush_threshold_clamped_witness :
    (Crawler.mkWriter 0 10 0 [] .missing).flushEveryItems = 1 ∧
    (Crawler.add 3 sampleItem (Crawler.mkWriter 0 10 0 [] .missing)).buffer = [] :=
  ⟨(flush_threshold_clamped 0 (by decide)).1 10 0 [] .missing,
   (flush_threshold_clamped 0 (by decide)).2 _ _ 3
     ((flush_threshold_clamped 0 (by decide)).1 10 0 [] .missing)⟩

/-- C5: `safe_call` propagates a non-signature error immediately on the
first attempt (no retry, no re-stabilization); when every attempt raises
a signature-matching error it runs the fixed bound of 3 attempts,
re-stabilizing after each such failure, and finally raises the last
error. -/
theorem safe_call_retry_semantics {α : Type} (att : Nat → Except String α)
    (e0 e1 e2 : String) :
    (att 0 = .error e0 → Crawler.isTransientMsg e0 = false →
      Crawler.safe_call att 3 = ⟨.error (some e0), 0⟩) ∧
    (att 0 = .error e0 → att 1 = .error e1 → att 2 = .error e2 →
      Crawler.isTransientMsg e0 = true → Crawler.isTransientMsg e1 = true →
      Crawler.isTransientMsg e2 = true →
      Crawler.safe_call att 3 = ⟨.error (some e2), 3⟩) := by
  constructor
  · intro h0 ht
    simp [Crawler.safe_call, Crawler.safeCallAux, h0, ht]
  · intro h0 h1 h2 t0 t1 t2
    simp [Crawler.safe_call, Crawler.safeCallAux, h0, h1, h2, t0, t1, t2]

/-- Witness for C5: a non-transient error is raised with no
stabilization; three transient errors exhaust the bound with three
stabilizations and the last error raised. -/
theorem safe_call_retry_semantics_witness :
    Crawler.safe_call attBoom 3 = ⟨.error (some "boom"), 0⟩ ∧
    Crawler.safe_call attClosed 3
      = ⟨.error (some "Target closed while navigating"), 3⟩ :=
  ⟨(safe_call_retry_semantics attBoom "boom" "" "").1 rfl (by decide),
   (safe_call_retry_semantics attClosed "Target closed while navigating"
      "Target closed while navigating" "Target closed while navigating").2
     rfl rfl rfl (by decide) (by decide) (by decide)⟩

/-- C2: evaluation of the main.py scheduler's batched enqueue loop at a
failing input.  With allow-list `["/mocks"]`, leaked seeding variable
`u = "https://interviewing.io/mocks"` (allow-listed) and a discovered
link `"https://interviewing.io/about"` whose own path is NOT allow-listed,
the loop still enqueues the link: the allow-list check is applied to the
stale seed variable instead of the candidate link. -/
theorem main_enqueue_checks_stale_seed :
    MainPy.enqueueLoop "https://interviewing.io/mocks" [] 1000 ["/mocks"]
      ["https://interviewing.io/mocks"] ["https://interviewing.io/about"]
      = ["https://interviewing.io/about"] ∧
    Crawler.path_allowed "https://interviewing.io/about" ["/mocks"] = false ∧
    Crawler.path_allowed "https://interviewing.io/mocks" ["/mocks"] = true := by
  refine ⟨?_, by decide, by decide⟩
  decide

/-- C6 counterexample: the code compares the lowercased NETLOC (which
keeps an explicit port) against the domain, not the host, so a same-host
URL with an explicit port is rejected while the spec's host-based
`sameSite` accepts it. -/
theorem same_domain_port_counterexample :
    Crawler.same_domain "https://example.com:8080/x" "example.com" = false ∧
    sameSiteSpec "https://example.com:8080/x" "example.com" = true := by
  constructor <;> decide

/-- C6 amended: for every link and site, `same_domain` returns false on a
parse error (it never raises), and on a successful parse it returns true
iff the link's lowercased netloc (host plus any userinfo/port) equals the
site lowercased with leading dots stripped, or ends with `.` followed by
it. -/
theorem same_domain_amended (link domain : String) :
    (∀ e, Urllib.urlparseE link.toList [] = .error e →
      Crawler.same_domain link domain = false) ∧
    (∀ r, Urllib.urlparseE link.toList [] = .ok r →
      (Crawler.same_domain link domain = true ↔
        (r.netloc.map Char.toLower
            = (domain.toList.map Char.toLower).dropWhile (fun c => c == '.') ∨
         ('.' :: (domain.toList.map Char.toLower).dropWhile (fun c => c == '.'))
            <:+ r.netloc.map Char.toLower))) := by
  constructor
  · intro e he
    unfold Crawler.same_domain
    rw [he]
  · intro r hr
    unfold Crawler.same_domain
    rw [hr]
    simp [List.isSuffixOf_iff_suffix]

/-- Witness for C6's amended theorem at a subdomain link. -/
theorem same_domain_amended_witness :
    Crawler.same_domain "https://blog.example.com/x" "Example.com" = true :=
  ((same_domain_amended "https://blog.example.com/x" "Example.com").2
    ⟨"https".toList, "blog.example.com".toList, "/x".toList, [], [], []⟩
    (by rfl)).mpr (by decide)

/-- C9: the hidden-links module's `same_domain` is symmetric in its two
arguments, and in particular accepts the reverse subdomain direction: a
URL whose host is a parent domain of the reference site's host. -/
theorem hidden_same_domain_symm :
    (∀ a b, HiddenLinks.same_domain a b = HiddenLinks.same_domain b a) ∧
    HiddenLinks.same_domain "https://example.com/" "https://blog.example.com/"
      = true := by
  constructor
  · intro a b
    unfold HiddenLinks.same_domain
    cases ha : Urllib.urlsplitE a.toList [] <;>
      cases hb : Urllib.urlsplitE b.toList [] <;> simp
    have hbeq : ∀ x y : List Char, (x == y) = (y == x) := by
      intro x y
      by_cases h : x = y
      · simp [h]
      · simp [h]
        exact fun hh => h hh.symm
    rw [hbeq]
    rw [Bool.or_assoc, Bool.or_assoc]
    congr 1
    exact Bool.or_comm _ _
  · decide

/-- Soundness of the crawler's batched enqueue loop: every emitted link
is new to `visited` and to the `enqueued` log, allow-listed, emitted only
below the cap, and the batch itself has no duplicates. -/
theorem enqueueLoop_sound (visited : List String) (limit : Nat)
    (prefs : List String) :
    ∀ links enq,
      (∀ l ∈ Crawler.enqueueLoop visited limit prefs enq links,
        l ∉ visited ∧ l ∉ enq ∧ Crawler.path_allowed l prefs = true
          ∧ visited.length < limit) ∧
      (Crawler.enqueueLoop visited limit prefs enq links).Nodup := by
  intro links
  induction links with
  | nil =>
    intro enq
    simp [Crawler.enqueueLoop]
  | cons lnk ls ih =>
    intro enq
    by_cases hcap : limit ≤ visited.length
    · simp [Crawler.enqueueLoop, hcap]
    · by_cases hc : (!(visited.contains lnk) && !(enq.contains lnk)
          && Crawler.path_allowed lnk prefs) = true
      · have heq : Crawler.enqueueLoop visited limit prefs enq (lnk :: ls)
            = lnk :: Crawler.enqueueLoop visited limit prefs (enq ++ [lnk]) ls := by
          simp only [Crawler.enqueueLoop]
          rw [if_neg hcap, if_pos hc]
        have hc2 : lnk ∉ visited ∧ lnk ∉ enq
            ∧ Crawler.path_allowed lnk prefs = true := by
          simpa [and_assoc] using hc
        obtain ⟨ihmem, ihnd⟩ := ih (enq ++ [lnk])
        rw [heq]
        constructor
        · intro l hl
          rcases List.mem_cons.mp hl with rfl | hl2
          · exact ⟨hc2.1, hc2.2.1, hc2.2.2, lt_of_not_le hcap⟩
          · obtain ⟨h1, h2, h3, h4⟩ := ihmem l hl2
            exact ⟨h1, fun hm => h2 (List.mem_append_left _ hm), h3, h4⟩
        · refine List.nodup_cons.mpr ⟨?_, ihnd⟩
          intro hmem
          exact (ihmem lnk hmem).2.1 (List.mem_append_right _ (by simp))
      · have heq : Crawler.enqueueLoop visited limit prefs enq (lnk :: ls)
            = Crawler.enqueueLoop visited limit prefs enq ls := by
          simp only [Crawler.enqueueLoop]
          rw [if_neg hcap, if_neg hc]
        rw [heq]
        exact ih enq

/-- Every worker step preserves the frontier invariant. -/
theorem step_preserves_inv {limit : Nat} {prefs : List String}
    {s t : Crawler.SchedState} (hst : Crawler.Step limit prefs s t)
    (hinv : Crawler.Inv limit s) : Crawler.Inv limit t := by
  obtain ⟨hvn, hen, hve, hqe, hvl⟩ := hinv
  cases hst with
  | dropCap url rest enq vis hcap =>
    exact ⟨hvn, hen, hve, fun u hu => hqe u (List.mem_cons_of_mem _ hu), hvl⟩
  | skipVisited url rest enq vis hlt hmem =>
    exact ⟨hvn, hen, hve, fun u hu => hqe u (List.mem_cons_of_mem _ hu), hvl⟩
  | take url rest enq vis hlt hnmem =>
    refine ⟨?_, hen, ?_, ?_, ?_⟩
    · refine List.nodup_append.mpr ⟨hvn, List.nodup_singleton url, ?_⟩
      intro a ha hb
      rw [List.mem_singleton] at hb
      subst hb
      exact hnmem ha
    · intro u hu
      rcases List.mem_append.mp hu with h | h
      · exact hve u h
      · rw [List.mem_singleton] at h
        subst h
        exact hqe u (List.mem_cons_self _ _)
    · intro u hu
      exact hqe u (List.mem_cons_of_mem _ hu)
    · simpa using Nat.succ_le_of_lt hlt
  | finish q enq vis links =>
    have hfacts :
        (∀ l ∈ Crawler.batchEnqueue vis enq limit prefs links,
          l ∉ vis ∧ l ∉ enq ∧ Crawler.path_allowed l prefs = true
            ∧ vis.length < limit) ∧
        (Crawler.batchEnqueue vis enq limit prefs links).Nodup := by
      by_cases h : vis.length < limit
      · simpa [Crawler.batchEnqueue, h] using
          enqueueLoop_sound vis limit prefs links enq
      · simp [Crawler.batchEnqueue, h]
    refine ⟨hvn, ?_, ?_, ?_, hvl⟩
    · exact List.nodup_append.mpr
        ⟨hen, hfacts.2, fun a ha hb => (hfacts.1 a hb).2.1 ha⟩
    · intro u hu
      exact List.mem_append_left _ (hve u hu)
    · intro u hu
      rcases List.mem_append.mp hu with h | h
      · exact List.mem_append_left _ (hqe u h)
      · exact List.mem_append_right _ h

/-- C1: along every run (any interleaving of worker steps from a seeded
initial state), at every reachable point no URL entered `visited` or
`enqueued` twice, every visited URL was previously added to `enqueued`,
and the visited count never exceeds the cap. -/
theorem frontier_invariant (limit : Nat) (prefs : List String)
    (s0 s : Crawler.SchedState) (h0 : Crawler.IsInit s0)
    (hr : Crawler.Reaches limit prefs s0 s) :
    s.visited.Nodup ∧ s.enqueued.Nodup
      ∧ (∀ u ∈ s.visited, u ∈ s.enqueued)
      ∧ s.visited.length ≤ limit := by
  have hinv : Crawler.Inv limit s := by
    induction hr with
    | refl =>
      refine ⟨by simp [h0.2.2], h0.2.1, by simp [h0.2.2], ?_, by simp [h0.2.2]⟩
      rw [h0.1]
      exact fun u hu => hu
    | tail hsteps hstep ih =>
      exact step_preserves_inv hstep ih
  exact ⟨hinv.1, hinv.2.1, hinv.2.2.1, hinv.2.2.2.2⟩

/-- Witness for C1: a one-seed run that takes its seed. -/
theorem frontier_invariant_witness :
    (["https://quill.co/"] : List String).Nodup
      ∧ (["https://quill.co/"] : List String).Nodup
      ∧ (∀ u ∈ (["https://quill.co/"] : List String),
          u ∈ (["https://quill.co/"] : List String))
      ∧ (["https://quill.co/"] : List String).length ≤ 2 :=
  frontier_invariant 2 [] ⟨["https://quill.co/"], ["https://quill.co/"], []⟩
    ⟨[], ["https://quill.co/"], ["https://quill.co/"]⟩
    ⟨rfl, by decide, rfl⟩
    (Relation.ReflTransGen.single
      (Crawler.Step.take "https://quill.co/" [] ["https://quill.co/"] []
        (by decide) (by decide)))

/-- C4 counterexample: a pipeline that raises during link discovery,
after the record was already handed to the writer.  `_scrape_one` returns
the URL with an empty link set, as the claim says, but content WAS
persisted for that URL, refuting the claim's "no content is persisted". -/
theorem scrape_error_persisted_counterexample :
    Crawler.scrapeErrored envDiscoveryError = true ∧
    (Crawler.scrape_one cfgSample envDiscoveryError
        "https://quill.co/blog/post").1 = ("https://quill.co/blog/post", []) ∧
    (Crawler.scrape_one cfgSample envDiscoveryError
        "https://quill.co/blog/post").2 ≠ [] := by
  refine ⟨rfl, rfl, ?_⟩
  have h : (Crawler.scrape_one cfgSample envDiscoveryError
      "https://quill.co/blog/post").2
      = [⟨"Title", "blog", "<html></html>", "https://quill.co/blog/post"⟩] := rfl
  rw [h]
  simp

/-- C4 amended: when any operation of the page-visit pipeline raises, the
pipeline returns that URL paired with an empty link set and the run
continues (the scheduler's take step still consumes the URL, leaving the
rest of the queue to be processed); no content is persisted when the
raise happened before the save step, while a record persisted before a
later raise (one during link discovery) is kept. -/
theorem scrape_error_isolated (cfg : Crawler.Cfg) (env : Crawler.PageEnv)
    (url : String) (herr : Crawler.scrapeErrored env = true) :
    (Crawler.scrape_one cfg env url).1 = (url, []) ∧
    (Crawler.erroredBeforeSave env = true →
      (Crawler.scrape_one cfg env url).2 = []) ∧
    (∀ limit prefs rest enq vis,
      vis.length < limit → url ∉ vis →
      Crawler.Step limit prefs ⟨url :: rest, enq, vis⟩
        ⟨rest, enq, vis ++ [url]⟩) := by
  refine ⟨?_, ?_, fun limit prefs rest enq vis h1 h2 =>
    Crawler.Step.take url rest enq vis h1 h2⟩
  · unfold Crawler.scrapeErrored at herr
    unfold Crawler.scrape_one
    cases hg : env.goto with
    | error e => rfl
    | ok uu =>
      rw [hg] at herr
      cases hh : env.html with
      | error e => rfl
      | ok html =>
        rw [hh] at herr
        cases hm : env.meta with
        | error e => rfl
        | ok m =>
          rw [hm] at herr
          cases hp : Urllib.urlparseE env.finalUrl.toList with
          | error e => rfl
          | ok parsed =>
            rw [hp] at herr
            simp only [Bool.false_or] at herr
            dsimp only
            by_cases hseg : ((parsed.path != [] && parsed.path != ['/'])
                && ((Urllib.splitOnChar '/' parsed.path).get? 1).isNone) = true
            · rw [Bool.and_eq_true] at hseg
              obtain ⟨hcond, hnone⟩ := hseg
              rw [Option.isNone_iff_eq_none] at hnone
              rw [if_pos hcond, hnone]
            · rw [Bool.or_assoc, Bool.or_eq_true] at herr
              have hrest : ((match env.staticRaw with
                  | .error _ => true | .ok _ => false)
                  || (match env.inlineRaw with
                  | .error _ => true | .ok _ => false)) = true := by
                rcases herr with h | h
                · exact absurd h hseg
                · exact h
              by_cases hcond : (parsed.path != [] && parsed.path != ['/']) = true
              · cases hs : (Urllib.splitOnChar '/' parsed.path).get? 1 with
                | none =>
                  exfalso
                  apply hseg
                  rw [Bool.and_eq_true]
                  exact ⟨hcond, by rw [hs]; rfl⟩
                | some s =>
                  rw [if_pos hcond]
                  dsimp only
                  cases hst : env.staticRaw with
                  | error e => rfl
                  | ok raw =>
                    cases hin : env.inlineRaw with
                    | error e => rfl
                    | ok inl =>
                      rw [hst, hin] at hrest
                      simp at hrest
              · rw [if_neg hcond]
                dsimp only
                cases hst : env.staticRaw with
                | error e => rfl
                | ok raw =>
                  cases hin : env.inlineRaw with
                  | error e => rfl
                  | ok inl =>
                    rw [hst, hin] at hrest
                    simp at hrest
  · intro hbs
    unfold Crawler.erroredBeforeSave at hbs
    unfold Crawler.scrape_one
    cases hg : env.goto with
    | error e => rfl
    | ok uu =>
      rw [hg] at hbs
      cases hh : env.html with
      | error e => rfl
      | ok html =>
        rw [hh] at hbs
        cases hm : env.meta with
        | error e => rfl
        | ok m =>
          rw [hm] at hbs
          cases hp : Urllib.urlparseE env.finalUrl.toList with
          | error e => rfl
          | ok parsed =>
            rw [hp] at hbs
            simp only [Bool.false_or] at hbs
            rw [Bool.and_eq_true] at hbs
            obtain ⟨hcond, hnone⟩ := hbs
            rw [Option.isNone_iff_eq_none] at hnone
            dsimp only
            rw [if_pos hcond, hnone]

/-- Witness for C4's amended theorem at the concrete erroring
environment. -/
theorem scrape_error_isolated_witness :
    (Crawler.scrape_one cfgSample envDiscoveryError
        "https://quill.co/blog/post").1 = ("https://quill.co/blog/post", []) ∧
    Crawler.Step 5 [] ⟨["https://quill.co/blog/post"], ["https://quill.co/blog/post"], []⟩
      ⟨[], ["https://quill.co/blog/post"], ["https://quill.co/blog/post"]⟩ :=
  ⟨(scrape_error_isolated cfgSample envDiscoveryError
      "https://quill.co/blog/post" (by rfl)).1,
   (scrape_error_isolated cfgSample envDiscoveryError
      "https://quill.co/blog/post" (by rfl)).2.2 5 []
      [] ["https://quill.co/blog/post"] [] (by decide) (by decide)⟩

/-- Membership after a set-insertion comes from the old set or is the
inserted element. -/
theorem mem_addIfNew {r : List String} {x u : String}
    (h : u ∈ HiddenLinks.addIfNew r x) : u ∈ r ∨ u = x := by
  unfold HiddenLinks.addIfNew at h
  by_cases hc : r.contains x
  · rw [if_pos hc] at h
    exact Or.inl h
  · rw [if_neg hc] at h
    rcases List.mem_append.mp h with h2 | h2
    · exact Or.inl h2
    · right
      simpa using h2

/-- Membership after a set-union comes from either operand. -/
theorem mem_unionNew {u : String} :
    ∀ (xs r : List String), u ∈ HiddenLinks.unionNew r xs → u ∈ r ∨ u ∈ xs := by
  intro xs
  induction xs with
  | nil =>
    intro r h
    exact Or.inl h
  | cons x xs ih =>
    intro r h
    rcases ih (HiddenLinks.addIfNew r x) h with h2 | h2
    · rcases mem_addIfNew h2 with h3 | h3
      · exact Or.inl h3
      · exact Or.inr (by simp [h3])
    · exact Or.inr (List.mem_cons_of_mem _ h2)

/-- The insertion sort modelling Python `sorted` preserves membership. -/
theorem mem_insertSorted {u a : String} :
    ∀ l, u ∈ HiddenLinks.insertSorted a l → u = a ∨ u ∈ l := by
  intro l
  induction l with
  | nil =>
    intro h
    simpa [HiddenLinks.insertSorted] using h
  | cons b bs ih =>
    intro h
    unfold HiddenLinks.insertSorted at h
    by_cases hc : (HiddenLinks.lexLt a.toList b.toList || a == b) = true
    · rw [if_pos hc] at h
      rcases List.mem_cons.mp h with h2 | h2
      · exact Or.inl h2
      · exact Or.inr h2
    · rw [if_neg hc] at h
      rcases List.mem_cons.mp h with h2 | h2
      · exact Or.inr (by simp [h2])
      · rcases ih h2 with h3 | h3
        · exact Or.inl h3
        · exact Or.inr (List.mem_cons_of_mem _ h3)

theorem mem_sortedStrings {u : String} :
    ∀ l, u ∈ HiddenLinks.sortedStrings l → u ∈ l := by
  intro l
  induction l with
  | nil =>
    intro h
    simp [HiddenLinks.sortedStrings] at h
  | cons b bs ih =>
    intro h
    unfold HiddenLinks.sortedStrings at h
    rcases mem_insertSorted _ h with h2 | h2
    · simp [h2]
    · exact List.mem_cons_of_mem _ (ih h2)

/-- Every URL returned by one click probe is inside the base-path scope
and, when the same-domain restriction is requested, same-site with the
base URL. -/
theorem click_probe_urls_scoped (base : String) (sdo : Bool)
    (navs : List String) (cur : Option String) (u : String)
    (hu : u ∈ HiddenLinks.click_probe_urls base sdo navs cur) :
    HiddenLinks.in_base_path base u = true ∧
    (sdo = true → HiddenLinks.same_domain u base = true) := by
  unfold HiddenLinks.click_probe_urls at hu
  rw [List.mem_filter] at hu
  refine ⟨hu.2, ?_⟩
  intro hsdo
  subst hsdo
  have hu2 := hu.1
  rw [if_pos rfl] at hu2
  rw [List.mem_filter] at hu2
  exact hu2.2

/-- Along the event fold of `get_all_links`, every accumulated URL is
same-site with the input URL whenever the restriction is requested. -/
theorem foldl_events_same_site (url : String) (sdo : Bool) :
    ∀ (events : List HiddenLinks.DiscEvent) (r0 : List String),
      (∀ u ∈ r0, sdo = true → HiddenLinks.same_domain u url = true) →
      ∀ u ∈ events.foldl (HiddenLinks.stepEvent url sdo) r0,
        sdo = true → HiddenLinks.same_domain u url = true := by
  intro events
  induction events with
  | nil =>
    intro r0 h0
    simpa using h0
  | cons ev evs ih =>
    intro r0 h0
    rw [List.foldl_cons]
    apply ih
    intro u hu hsdo
    cases ev with
    | navReq v =>
      unfold HiddenLinks.stepEvent HiddenLinks.add_url at hu
      dsimp only at hu
      by_cases hv : v = ""
      · rw [if_pos hv] at hu
        exact h0 u hu hsdo
      · rw [if_neg hv] at hu
        by_cases hc : ((!sdo
              || HiddenLinks.same_domain (HiddenLinks.normalize_url url v) url)
            && HiddenLinks.in_base_path url (HiddenLinks.normalize_url url v)
            && !(r0.contains (HiddenLinks.normalize_url url v))) = true
        · rw [if_pos hc] at hu
          rcases List.mem_append.mp hu with h2 | h2
          · exact h0 u h2 hsdo
          · rw [List.mem_singleton] at h2
            subst h2
            rw [Bool.and_eq_true, Bool.and_eq_true] at hc
            have := hc.1.1
            rw [hsdo] at this
            simpa using this
        · rw [if_neg hc] at hu
          exact h0 u hu hsdo
    | probe navs cur =>
      unfold HiddenLinks.stepEvent at hu
      dsimp only at hu
      rcases mem_unionNew _ _ hu with h2 | h2
      · exact h0 u h2 hsdo
      · rw [List.mem_filter] at h2
        exact (click_probe_urls_scoped url sdo navs cur u h2.1).2 hsdo

/-- C8: every URL returned by `get_all_links` lies in the base-path scope
of the input URL, has a hostname, and — when the same-domain restriction
is requested — is same-site with the input URL, no matter through which
capture path (navigation-request hook, click-probe hook log, or detected
URL change) it entered the result set. -/
theorem get_all_links_scoped (url : String) (sdo : Bool)
    (events : List HiddenLinks.DiscEvent) (u : String)
    (hu : u ∈ HiddenLinks.get_all_links url sdo events) :
    HiddenLinks.in_base_path url u = true ∧
    HiddenLinks.has_hostname u = true ∧
    (sdo = true → HiddenLinks.same_domain u url = true) := by
  unfold HiddenLinks.get_all_links at hu
  have hu2 := mem_sortedStrings _ hu
  rw [List.mem_filter, Bool.and_eq_true] at hu2
  exact ⟨hu2.2.2, hu2.2.1,
    foldl_events_same_site url sdo events [] (by simp) u hu2.1⟩

/-- Witness for C8 on a concrete two-event run. -/
theorem get_all_links_scoped_witness :
    HiddenLinks.in_base_path "https://quill.co/blog"
        "https://quill.co/blog/post1" = true ∧
    HiddenLinks.has_hostname "https://quill.co/blog/post1" = true ∧
    (true = true → HiddenLinks.same_domain "https://quill.co/blog/post1"
        "https://quill.co/blog" = true) :=
  get_all_links_scoped "https://quill.co/blog" true sampleEvents
    "https://quill.co/blog/post1" (by decide)

/-- Characters of the part before the split character come from the
input. -/
theorem mem_splitFirstChar_fst {c c0 : Char} :
    ∀ l : Urllib.Chars, c ∈ (Urllib.splitFirstChar c0 l).1 → c ∈ l := by
  intro l
  induction l with
  | nil =>
    intro h
    simp [Urllib.splitFirstChar] at h
  | cons a as ih =>
    intro h
    unfold Urllib.splitFirstChar at h
    by_cases hc : (a == c0) = true
    · rw [if_pos hc] at h
      simp at h
    · rw [if_neg hc] at h
      dsimp only at h
      rcases List.mem_cons.mp h with h2 | h2
      · simp [h2]
      · exact List.mem_cons_of_mem _ (ih h2)

/-- The split character never occurs in the part before the split. -/
theorem splitFirstChar_fst_not {c0 : Char} :
    ∀ l : Urllib.Chars, c0 ∉ (Urllib.splitFirstChar c0 l).1 := by
  intro l
  induction l with
  | nil =>
    simp [Urllib.splitFirstChar]
  | cons a as ih =>
    unfold Urllib.splitFirstChar
    by_cases hc : (a == c0) = true
    · rw [if_pos hc]
      simp
    · rw [if_neg hc]
      dsimp only
      intro h
      rcases List.mem_cons.mp h with h2 | h2
      · exact hc (by simp [h2])
      · exact ih h2

/-- Characters of the part after the split character come from the
input. -/
theorem mem_splitFirstChar_snd {c c0 : Char} :
    ∀ l : Urllib.Chars, c ∈ ((Urllib.splitFirstChar c0 l).2).getD [] → c ∈ l := by
  intro l
  induction l with
  | nil =>
    intro h
    simp [Urllib.splitFirstChar] at h
  | cons a as ih =>
    intro h
    unfold Urllib.splitFirstChar at h
    by_cases hc : (a == c0) = true
    · rw [if_pos hc] at h
      dsimp only at h
      exact List.mem_cons_of_mem _ h
    · rw [if_neg hc] at h
      dsimp only at h
      exact List.mem_cons_of_mem _ (ih h)

/-- The netloc scan stops before `/`, `?` and `#`, so `#` never occurs in
the netloc. -/
theorem splitNetlocChars_no_hash :
    ∀ l : Urllib.Chars, '#' ∉ (Urllib.splitNetlocChars l).1 := by
  intro l
  induction l with
  | nil =>
    simp [Urllib.splitNetlocChars]
  | cons a as ih =>
    unfold Urllib.splitNetlocChars
    by_cases hc : (a == '/' || a == '?' || a == '#') = true
    · rw [if_pos hc]
      simp
    · rw [if_neg hc]
      dsimp only
      intro h
      rcases List.mem_cons.mp h with h2 | h2
      · apply hc
        rw [← h2]
        decide
      · exact ih h2

theorem charOfNat_ne_hash : ∀ n : Nat, 65 ≤ n → n ≤ 90 →
    Char.ofNat (n + 32) ≠ '#' := by
  intro n h1 h2
  interval_cases n <;> decide

/-- Lowercasing only ever produces `#` from `#` itself. -/
theorem toLower_eq_hash {c : Char} (h : Char.toLower c = '#') : c = '#' := by
  unfold Char.toLower at h
  by_cases hb : c.toNat ≥ 65 ∧ c.toNat ≤ 90
  · rw [if_pos hb] at h
    exact absurd h (charOfNat_ne_hash c.toNat hb.1 hb.2)
  · rw [if_neg hb] at h
    exact h

/-- A scheme extracted by `splitSchemeChars` contains no `#` (all its
characters pass the scheme-character check before lowercasing). -/
theorem splitSchemeChars_no_hash {url sch : Urllib.Chars}
    (h : (Urllib.splitSchemeChars url).1 = some sch) : '#' ∉ sch := by
  unfold Urllib.splitSchemeChars at h
  split at h
  · rename_i i hfind
    by_cases hc : (0 < i
        && (match url.head? with | some c => c.isAlpha | none => false)
        && (url.take i).all Urllib.isSchemeChar) = true
    · rw [if_pos hc] at h
      dsimp only at h
      rw [Option.some_inj] at h
      subst h
      rw [Bool.and_eq_true] at hc
      have hall := hc.2
      intro hmem
      rw [List.mem_map] at hmem
      obtain ⟨c, hc1, hc2⟩ := hmem
      have hc3 : c = '#' := toLower_eq_hash hc2
      subst hc3
      have := (List.all_eq_true.mp hall) '#' hc1
      simp [Urllib.isSchemeChar] at this
    · rw [if_neg hc] at h
      simp at h
  · simp at h

/-- The scheme component of a split (with empty default) has no `#`. -/
theorem getD_scheme_no_hash (l : Urllib.Chars) :
    '#' ∉ ((Urllib.splitSchemeChars l).1).getD [] := by
  cases hopt : (Urllib.splitSchemeChars l).1 with
  | none => simp
  | some sch => simpa using splitSchemeChars_no_hash hopt

/-- No component of a successful `urlsplit` (with empty default scheme)
contains `#`: the fragment split removes everything from the first `#`
on, the netloc scan stops at `#`, and scheme characters exclude it. -/
theorem urlsplitE_no_hash {url : Urllib.Chars} {r : Urllib.SplitResult}
    (h : Urllib.urlsplitE url [] = .ok r) :
    '#' ∉ r.scheme ∧ '#' ∉ r.netloc ∧ '#' ∉ r.path ∧ '#' ∉ r.query := by
  unfold Urllib.urlsplitE at h
  dsimp only at h
  split at h
  · split at h
    · exact absurd h (by simp)
    · rw [Except.ok.injEq] at h
      subst h
      refine ⟨getD_scheme_no_hash _, splitNetlocChars_no_hash _, ?_, ?_⟩
      · intro hm
        exact splitFirstChar_fst_not _ (mem_splitFirstChar_fst _ hm)
      · intro hm
        exact splitFirstChar_fst_not _ (mem_splitFirstChar_snd _ hm)
  · rw [Except.ok.injEq] at h
    subst h
    refine ⟨getD_scheme_no_hash _, by simp, ?_, ?_⟩
    · intro hm
      exact splitFirstChar_fst_not _ (mem_splitFirstChar_fst _ hm)
    · intro hm
      exact splitFirstChar_fst_not _ (mem_splitFirstChar_snd _ hm)

/-- Collapsing slashes only keeps characters of the input. -/
theorem mem_collapseSlashes {c : Char} :
    ∀ l : Urllib.Chars, c ∈ collapseSlashes l → c ∈ l := by
  intro l
  induction l with
  | nil =>
    intro h
    simp [collapseSlashes] at h
  | cons a as ih =>
    cases as with
    | nil =>
      intro h
      simpa [collapseSlashes] using h
    | cons b rest =>
      intro h
      unfold collapseSlashes at h
      by_cases hc : (a == '/' && b == '/') = true
      · rw [if_pos hc] at h
        exact List.mem_cons_of_mem _ (ih h)
      · rw [if_neg hc] at h
        rcases List.mem_cons.mp h with h2 | h2
        · simp [h2]
        · exact List.mem_cons_of_mem _ (ih h2)

/-- Collapsing never changes the first character. -/
theorem collapseSlashes_head :
    ∀ (rest : Urllib.Chars) (b : Char),
      ∃ t, collapseSlashes (b :: rest) = b :: t := by
  intro rest
  induction rest with
  | nil =>
    intro b
    exact ⟨[], rfl⟩
  | cons c rs ih =>
    intro b
    by_cases hc : (b == '/' && c == '/') = true
    · obtain ⟨t, ht⟩ := ih c
      rw [Bool.and_eq_true] at hc
      have hb : b = '/' := by simpa using hc.1
      have hcc : c = '/' := by simpa using hc.2
      refine ⟨t, ?_⟩
      show collapseSlashes (b :: c :: rs) = b :: t
      unfold collapseSlashes
      rw [if_pos (by rw [Bool.and_eq_true]
                     exact ⟨by simp [hb], by simp [hcc]⟩)]
      rw [ht, hb, hcc]
    · exact ⟨collapseSlashes (c :: rs), by
        simp only [collapseSlashes]
        rw [if_neg hc]⟩

/-- The output of `collapseSlashes` never contains two adjacent
slashes (soundness of the `re.sub` model). -/
theorem collapseSlashes_no_double :
    ∀ l : Urllib.Chars, hasDoubleSlash (collapseSlashes l) = false := by
  intro l
  induction l with
  | nil => rfl
  | cons a as ih =>
    cases as with
    | nil => rfl
    | cons b rest =>
      unfold collapseSlashes
      by_cases hc : (a == '/' && b == '/') = true
      · rw [if_pos hc]
        exact ih
      · rw [if_neg hc]
        obtain ⟨t, ht⟩ := collapseSlashes_head rest b
        rw [ht]
        show hasDoubleSlash (a :: b :: t) = false
        unfold hasDoubleSlash
        rw [Bool.or_eq_false_iff]
        exact ⟨Bool.eq_false_iff.mpr hc, ht ▸ ih⟩

theorem orSlash_collapse_no_double (l : Urllib.Chars) :
    hasDoubleSlash (orSlash (collapseSlashes l)) = false := by
  unfold orSlash
  split
  · rfl
  · exact collapseSlashes_no_double l

theorem orSlash_ne_nil (l : Urllib.Chars) : orSlash l ≠ [] := by
  unfold orSlash
  split
  · simp
  · rename_i h
    intro hnil
    exact h (by simp [hnil])

theorem orSlash_collapse_no_hash {l : Urllib.Chars} (h : '#' ∉ l) :
    '#' ∉ orSlash (collapseSlashes l) := by
  unfold orSlash
  split
  · decide
  · intro hm
    exact h (mem_collapseSlashes _ hm)

/-- Rebuilding a URL whose components are `#`-free with an empty fragment
yields a string without `#`. -/
theorem urlunsplit_no_hash {r : Urllib.SplitResult}
    (h1 : '#' ∉ r.scheme) (h2 : '#' ∉ r.netloc) (h3 : '#' ∉ r.path)
    (h4 : '#' ∉ r.query) (h5 : r.fragment = []) :
    '#' ∉ Urllib.urlunsplit r := by
  unfold Urllib.urlunsplit
  rw [h5]
  dsimp only
  split_ifs <;>
    simp_all [List.mem_append, List.mem_cons]

/-- C7: `normalize_url(base, u)` postcondition.  When parsing fails the
input `u` is returned unchanged.  When parsing succeeds the result is the
rebuild of the split of `urljoin(base, u)` — the resolution of `u`
against `base` — with the fragment dropped and the path's slash runs
collapsed (empty path becoming `/`) while the query component is kept
verbatim; the result string contains no `#` at all, and the path written
into it contains no two consecutive slashes and is nonempty. -/
theorem normalize_url_postcondition (base u : String) :
    (normParts base u = none → HiddenLinks.normalize_url base u = u) ∧
    (∀ parts, normParts base u = some parts →
      (HiddenLinks.normalize_url base u).toList
          = Urllib.urlunsplit ⟨parts.scheme, parts.netloc,
              orSlash (collapseSlashes parts.path), parts.query, []⟩ ∧
      '#' ∉ (HiddenLinks.normalize_url base u).toList ∧
      hasDoubleSlash (orSlash (collapseSlashes parts.path)) = false ∧
      orSlash (collapseSlashes parts.path) ≠ []) := by
  constructor
  · intro hn
    unfold normParts at hn
    unfold HiddenLinks.normalize_url
    cases hj : Urllib.urljoinE base.toList u.toList with
    | error e => rfl
    | ok absu =>
      rw [hj] at hn
      dsimp only at hn ⊢
      cases hs : Urllib.urlsplitE absu [] with
      | error e => rfl
      | ok parts =>
        rw [hs] at hn
        simp at hn
  · intro parts hp
    unfold normParts at hp
    cases hj : Urllib.urljoinE base.toList u.toList with
    | error e =>
      rw [hj] at hp
      simp at hp
    | ok absu =>
      rw [hj] at hp
      dsimp only at hp
      cases hs : Urllib.urlsplitE absu [] with
      | error e =>
        rw [hs] at hp
        simp at hp
      | ok r0 =>
        rw [hs] at hp
        dsimp only at hp
        rw [Option.some_inj] at hp
        subst hp
        have hres : HiddenLinks.normalize_url base u
            = String.mk (Urllib.urlunsplit ⟨r0.scheme, r0.netloc,
                orSlash (collapseSlashes r0.path), r0.query, []⟩) := by
          unfold HiddenLinks.normalize_url
          rw [hj]
          dsimp only
          rw [hs]
        obtain ⟨hs1, hs2, hs3, hs4⟩ := urlsplitE_no_hash hs
        refine ⟨by rw [hres]; rfl, ?_, orSlash_collapse_no_double r0.path,
          orSlash_ne_nil _⟩
        rw [hres]
        exact @urlunsplit_no_hash ⟨r0.scheme, r0.netloc,
          orSlash (collapseSlashes r0.path), r0.query, []⟩ hs1 hs2
          (orSlash_collapse_no_hash hs3) hs4 rfl

/-- Witness for C7 at a protocol-relative input with duplicate slashes, a
query and a fragment. -/
theorem normalize_url_postcondition_witness :
    (HiddenLinks.normalize_url "https://quill.co/blog/"
        "//a//b/../c?x=1#frag").toList
        = Urllib.urlunsplit ⟨"https".toList, ['a'],
            orSlash (collapseSlashes "//b/../c".toList), "x=1".toList, []⟩ ∧
    '#' ∉ (HiddenLinks.normalize_url "https://quill.co/blog/"
        "//a//b/../c?x=1#frag").toList ∧
    hasDoubleSlash (orSlash (collapseSlashes "//b/../c".toList)) = false ∧
    orSlash (collapseSlashes "//b/../c".toList) ≠ [] :=
  (normalize_url_postcondition "https://quill.co/blog/"
      "//a//b/../c?x=1#frag").2
    ⟨"https".toList, ['a'], "//b/../c".toList, "x=1".toList, "frag".toList⟩
    (by rfl)
